import Mathlib

/-!
Verification of the market analytics core (Go package market of nofx).

The Go code is shallowly embedded: IEEE-754 doubles are modelled as exact
rationals (ℚ), Go int64 timestamps as ℤ, Go int as ℤ or ℕ as appropriate.
In ℚ a division by zero yields 0 (Go would yield ±Inf/NaN); every place
where this matters is noted at the definition.  Pure Go functions become
Lean functions; the one analyzer that mutates its receiver (VPVRAnalyzer)
is embedded in state-passing style, returning the updated config.
-/

namespace Market

/-- Go conversion int(x) for a float x: truncation toward zero. -/
def goTrunc (x : ℚ) : ℤ := if 0 ≤ x then ⌊x⌋ else ⌈x⌉

/-- Go math.Round: round half away from zero. -/
def goRound (x : ℚ) : ℤ := if 0 ≤ x then ⌊x + 1/2⌋ else ⌈x - 1/2⌉

/-- utils.go min (also Go's float min on non-NaN inputs). -/
def goMin (a b : ℚ) : ℚ := if a < b then a else b

/-- utils.go max (also Go's float max on non-NaN inputs). -/
def goMax (a b : ℚ) : ℚ := if b < a then a else b

/-- utils.go abs. -/
def goAbs (x : ℚ) : ℚ := if x < 0 then -x else x

/-- One OHLCV candle (market.Kline); only the fields the analyzers read. -/
structure Kline where
  openTime : ℤ
  open_ : ℚ
  high : ℚ
  low : ℚ
  close : ℚ
  volume : ℚ
deriving DecidableEq, Repr

/-! ## Signal fusion (comprehensive_analysis.go) -/

/-- The source tags produced by the five signal collectors
(collectDowTheorySignals etc.); mergeSignals branches on these names. -/
inductive SourceTag
  | dowTheory
  | vpvr
  | supplyDemand
  | fvg
  | fibonacci
deriving DecidableEq, Repr

/-- market.SignalSource (string Details field omitted: display only). -/
structure SignalSource where
  source : SourceTag
  weight : ℚ
  confidence : ℚ
deriving DecidableEq, Repr

/-- market.SignalAction. -/
inductive SignalAction
  | buy
  | sell
  | hold
  | close
deriving DecidableEq, Repr

/-- market.SignalPriority. -/
inductive SignalPriority
  | high
  | medium
  | low
deriving DecidableEq, Repr

/-- market.UnifiedSignal (string fields ID/Type/Description/TimeFrame omitted;
the fusion algorithm is modelled structurally, so the ID used only as a
processed-set key is not needed). -/
structure UnifiedSignal where
  action : SignalAction
  entry : ℚ
  stopLoss : ℚ
  takeProfit : ℚ
  riskReward : ℚ
  confidence : ℚ
  strength : ℚ
  sources : List SignalSource
  priority : SignalPriority
  timestamp : ℤ
deriving DecidableEq, Repr

/-- canFuseSignals: same action, entries within 5% (relative to signal1's
entry, as in the source), timestamps within one hour (in ms). -/
def canFuseSignals (s1 s2 : UnifiedSignal) : Bool :=
  if s1.action ≠ s2.action then false
  else if 1/20 < goAbs (s1.entry - s2.entry) / s1.entry then false
  else if 3600 * 1000 < goAbs ((s1.timestamp : ℚ) - (s2.timestamp : ℚ)) then false
  else true

/-- mergeSignals: append sources; recompute the entry as a weighted sum in
which a dow_theory source contributes the target's entry and every other
tag contributes the source's entry (exactly the source's if/else chain);
take the stop/take-profit of the better risk/reward and the max strength. -/
def mergeSignals (target source : UnifiedSignal) : UnifiedSignal :=
  let sources := target.sources ++ source.sources
  let totalWeight := sources.foldl (fun acc src => acc + src.weight) (0 : ℚ)
  let weightedEntry := sources.foldl (fun acc src =>
    match src.source with
    | SourceTag.dowTheory => acc + target.entry * src.weight
    | _ => acc + source.entry * src.weight) (0 : ℚ)
  let entry := if 0 < totalWeight then weightedEntry / totalWeight else target.entry
  let t1 : UnifiedSignal := { target with sources := sources, entry := entry }
  let t2 : UnifiedSignal :=
    if target.riskReward < source.riskReward then
      { t1 with stopLoss := source.stopLoss, takeProfit := source.takeProfit,
                riskReward := source.riskReward }
    else t1
  if target.strength < source.strength then { t2 with strength := source.strength } else t2

/-- recalculateConfidence: weight-averaged source confidences, then +5 per
extra source capped at 100, then re-tier the priority at 80 / 60. -/
def recalculateConfidence (signal : UnifiedSignal) : UnifiedSignal :=
  if signal.sources.isEmpty then signal
  else
    let totalWeight := signal.sources.foldl (fun acc src => acc + src.weight) (0 : ℚ)
    let weightedConfidence :=
      signal.sources.foldl (fun acc src => acc + src.confidence * src.weight) (0 : ℚ)
    let c1 := if 0 < totalWeight then weightedConfidence / totalWeight else signal.confidence
    let c2 := if 1 < signal.sources.length then
        goMin (c1 + ((signal.sources.length : ℚ) - 1) * 5) 100
      else c1
    let priority := if 80 ≤ c2 then SignalPriority.high
      else if 60 ≤ c2 then SignalPriority.medium
      else SignalPriority.low
    { signal with confidence := c2, priority := priority }

/-- The body of fuseSignals' outer loop.  With signal IDs pairwise distinct
(they are nanosecond timestamps in the source) the processed-map algorithm
is exactly: take the first unprocessed signal, merge into it every later
signal fusible with it (fusibility is always tested against the original
signal1, merging accumulates left-to-right), rescore, and recurse on the
signals that were not merged. -/
def fuseLoop : ℕ → List UnifiedSignal → List UnifiedSignal
  | _, [] => []
  | 0, l => l
  | fuel + 1, s1 :: rest =>
    let fusible := rest.filter (fun s2 => canFuseSignals s1 s2)
    let remaining := rest.filter (fun s2 => !(canFuseSignals s1 s2))
    recalculateConfidence (fusible.foldl mergeSignals s1) :: fuseLoop fuel remaining

/-- fuseSignals: lists of length at most one are returned unchanged.  The
recursion is driven by a fuel argument for kernel reducibility; the fuel
(the list length) never runs out because each step consumes the head and
the remaining list is a sublist of the tail. -/
def fuseSignals (signals : List UnifiedSignal) : List UnifiedSignal :=
  if signals.length ≤ 1 then signals else fuseLoop signals.length signals

/-- The descending-confidence comparison passed to sort.Slice. -/
def confDesc (a b : UnifiedSignal) : Prop := b.confidence ≤ a.confidence

instance : DecidableRel confDesc := fun a b =>
  inferInstanceAs (Decidable (b.confidence ≤ a.confidence))

instance : IsTotal UnifiedSignal confDesc :=
  ⟨fun a b => le_total b.confidence a.confidence⟩

instance : IsTrans UnifiedSignal confDesc :=
  ⟨fun _ _ _ h1 h2 => le_trans h2 h1⟩

/-- The tail of generateUnifiedSignals, parametrized by the list of
collected per-analyzer signals (the collectors only build the input list;
the properties claimed hold for every collected list): fuse, drop below
min confidence, sort by confidence descending, truncate to max signals. -/
def generateUnifiedSignals (minConfidence : ℚ) (maxSignals : ℕ)
    (allSignals : List UnifiedSignal) : List UnifiedSignal :=
  let fused := fuseSignals allSignals
  let finalSignals := fused.filter (fun s => minConfidence ≤ s.confidence)
  let sorted := finalSignals.insertionSort confDesc
  if maxSignals < sorted.length then sorted.take maxSignals else sorted

/-- The dow_theory buy signal of the fusion seed scenario: confidence 70,
analyzer weight 0.25 (collectors set the single source's confidence equal
to the signal's). -/
def dowBuy70 : UnifiedSignal :=
  { action := SignalAction.buy, entry := 100, stopLoss := 95, takeProfit := 110,
    riskReward := 2, confidence := 70, strength := 50,
    sources := [{ source := SourceTag.dowTheory, weight := 1/4, confidence := 70 }],
    priority := SignalPriority.medium, timestamp := 0 }

/-- The supply_demand buy signal of the fusion seed scenario: confidence 80,
analyzer weight 0.2, same entry and timestamp as the dow signal. -/
def sdBuy80 : UnifiedSignal :=
  { action := SignalAction.buy, entry := 100, stopLoss := 96, takeProfit := 112,
    riskReward := 3, confidence := 80, strength := 60,
    sources := [{ source := SourceTag.supplyDemand, weight := 1/5, confidence := 80 }],
    priority := SignalPriority.high, timestamp := 0 }

/-- mergeSignals appends the source lists, whatever else it updates. -/
theorem mergeSignals_sources (target source : UnifiedSignal) :
    (mergeSignals target source).sources = target.sources ++ source.sources := by
  simp only [mergeSignals]
  split <;> split <;> rfl

/-- recalculateConfidence on a two-source signal with positive total weight:
the confidence becomes the capped weighted average plus the 5-point bonus. -/
theorem recalculateConfidence_two (signal : UnifiedSignal) (a b : SignalSource)
    (hs : signal.sources = [a, b]) (hw : 0 < a.weight + b.weight) :
    (recalculateConfidence signal).confidence =
      goMin ((a.confidence * a.weight + b.confidence * b.weight) /
        (a.weight + b.weight) + 5) 100 := by
  simp only [recalculateConfidence, hs]
  norm_num
  rw [if_pos hw]

theorem goMin_le_left (a b : ℚ) : goMin a b ≤ a := by
  simp only [goMin]
  split
  · exact le_refl a
  · exact le_of_not_lt (by assumption)

theorem goMin_le_right (a b : ℚ) : goMin a b ≤ b := by
  simp only [goMin]
  split
  · exact le_of_lt (by assumption)
  · exact le_refl b

theorem le_goMin {c a b : ℚ} (h1 : c ≤ a) (h2 : c ≤ b) : c ≤ goMin a b := by
  simp only [goMin]
  split
  · exact h1
  · exact h2

/-- Fusing a two-element list of fusible signals yields exactly one signal:
the rescored merge of the two. -/
theorem fuseSignals_pair (s1 s2 : UnifiedSignal) (h : canFuseSignals s1 s2 = true) :
    fuseSignals [s1, s2] = [recalculateConfidence (mergeSignals s1 s2)] := by
  simp [fuseSignals, fuseLoop, h]

set_option allowUnsafeReducibility true in
attribute [local semireducible] Rat.add Rat.mul Rat.inv Rat.sub in
unseal Nat.gcd in
/-- C1 (counterexample): the two seed-scenario buy signals are fusible, and
the fused signal's rescored confidence is 715/9 = 79.44..., strictly below
the maximum 80 of the two inputs (and below the 80 the claim promises):
the weighted average (70 times 0.25 plus 80 times 0.2) / 0.45 = 74.44...
plus the single 5-point multi-source bonus does not reach 80. -/
theorem fuseTwoBuys_confidence_below_max :
    canFuseSignals dowBuy70 sdBuy80 = true ∧
    (fuseSignals [dowBuy70, sdBuy80]).map (fun s => s.confidence) = [715/9] ∧
    (715/9 : ℚ) < goMax dowBuy70.confidence sdBuy80.confidence ∧
    goMax dowBuy70.confidence sdBuy80.confidence = 80 := by
  decide

/-- C1 (amended): fusing two same-action signals (entries within 5%, times
within one hour) that each carry a single source of positive weight whose
source confidence equals the signal confidence, both confidences at most
100, gives a fused confidence at least the MINIMUM of the two inputs
(the weighted average of the source confidences lies between the two, the
bonus only adds); the maximum bound of the original claim is false. -/
theorem fusedConfidence_ge_min (s1 s2 : UnifiedSignal) (a b : SignalSource)
    (hs1 : s1.sources = [a]) (hs2 : s2.sources = [b])
    (ha : 0 < a.weight) (hb : 0 < b.weight)
    (hca : a.confidence = s1.confidence) (hcb : b.confidence = s2.confidence)
    (h100a : s1.confidence ≤ 100) (hfuse : canFuseSignals s1 s2 = true) :
    fuseSignals [s1, s2] = [recalculateConfidence (mergeSignals s1 s2)] ∧
    goMin s1.confidence s2.confidence ≤
      (recalculateConfidence (mergeSignals s1 s2)).confidence := by
  refine ⟨fuseSignals_pair s1 s2 hfuse, ?_⟩
  have hsrc : (mergeSignals s1 s2).sources = [a, b] := by
    rw [mergeSignals_sources, hs1, hs2]; rfl
  have hw : 0 < a.weight + b.weight := by linarith
  rw [recalculateConfidence_two _ a b hsrc hw]
  have hm1 : goMin s1.confidence s2.confidence ≤ s1.confidence := goMin_le_left _ _
  have hm2 : goMin s1.confidence s2.confidence ≤ s2.confidence := goMin_le_right _ _
  have hwavg : goMin s1.confidence s2.confidence ≤
      (a.confidence * a.weight + b.confidence * b.weight) / (a.weight + b.weight) := by
    rw [le_div_iff₀ hw]
    rw [hca, hcb]
    nlinarith [mul_le_mul_of_nonneg_right hm1 ha.le, mul_le_mul_of_nonneg_right hm2 hb.le]
  exact le_goMin (by linarith) (by linarith)

set_option allowUnsafeReducibility true in
attribute [local semireducible] Rat.add Rat.mul Rat.inv Rat.sub in
unseal Nat.gcd in
/-- C1 (witness): the amended bound at the seed scenario; the fused
confidence 715/9 is at least goMin 70 80 = 70. -/
theorem fusedConfidence_ge_min_witness :
    fuseSignals [dowBuy70, sdBuy80] =
      [recalculateConfidence (mergeSignals dowBuy70 sdBuy80)] ∧
    goMin dowBuy70.confidence sdBuy80.confidence ≤
      (recalculateConfidence (mergeSignals dowBuy70 sdBuy80)).confidence :=
  fusedConfidence_ge_min dowBuy70 sdBuy80
    { source := SourceTag.dowTheory, weight := 1/4, confidence := 70 }
    { source := SourceTag.supplyDemand, weight := 1/5, confidence := 80 }
    rfl rfl (by norm_num) (by norm_num)
    rfl rfl (by norm_num [dowBuy70]) (by decide)

/-- C2: the unified signal list keeps only signals with confidence at least
the configured minimum, is sorted by confidence descending, and has length
at most the configured maximum, for every collected signal list (hence for
every input bundle and current price). -/
theorem generateUnifiedSignals_spec (minConfidence : ℚ) (maxSignals : ℕ)
    (allSignals : List UnifiedSignal) :
    (∀ s ∈ generateUnifiedSignals minConfidence maxSignals allSignals,
      minConfidence ≤ s.confidence) ∧
    List.Sorted confDesc (generateUnifiedSignals minConfidence maxSignals allSignals) ∧
    (generateUnifiedSignals minConfidence maxSignals allSignals).length ≤ maxSignals := by
  unfold generateUnifiedSignals
  set fused := fuseSignals allSignals with hfused
  set finalSignals := fused.filter (fun s => minConfidence ≤ s.confidence) with hfs
  set sorted := finalSignals.insertionSort confDesc with hsorted
  have hsort : List.Sorted confDesc sorted := List.sorted_insertionSort confDesc finalSignals
  have hmem : ∀ s ∈ sorted, minConfidence ≤ s.confidence := by
    intro s hs
    have : s ∈ finalSignals := ((finalSignals.perm_insertionSort confDesc).mem_iff).mp hs
    have := List.of_mem_filter this
    exact of_decide_eq_true this
  refine ⟨?_, ?_, ?_⟩
  · intro s hs
    apply hmem
    by_cases h : maxSignals < sorted.length
    · rw [if_pos h] at hs
      exact (List.take_sublist _ _).mem hs
    · rwa [if_neg h] at hs
  · by_cases h : maxSignals < sorted.length
    · rw [if_pos h]
      exact List.Pairwise.sublist (List.take_sublist _ _) hsort
    · rwa [if_neg h]
  · by_cases h : maxSignals < sorted.length
    · rw [if_pos h, List.length_take]
      exact min_le_left _ _
    · rw [if_neg h]
      exact le_of_not_lt h

set_option allowUnsafeReducibility true in
attribute [local semireducible] Rat.add Rat.mul Rat.inv Rat.sub in
unseal Nat.gcd in
/-- C2 (witness): the specification applied at the seed scenario input,
with the membership hypothesis discharged at the fused signal. -/
theorem generateUnifiedSignals_spec_witness :
    (60 : ℚ) ≤ (recalculateConfidence (mergeSignals dowBuy70 sdBuy80)).confidence ∧
    List.Sorted confDesc (generateUnifiedSignals 60 2 [dowBuy70, sdBuy80]) ∧
    (generateUnifiedSignals 60 2 [dowBuy70, sdBuy80]).length ≤ 2 := by
  have h := generateUnifiedSignals_spec 60 2 [dowBuy70, sdBuy80]
  exact ⟨h.1 (recalculateConfidence (mergeSignals dowBuy70 sdBuy80)) (by decide),
    h.2.1, h.2.2⟩

/-! ## Fair value gaps (fvg.go) -/

instance : Inhabited Kline := ⟨⟨0, 0, 0, 0, 0, 0⟩⟩

/-- market.FVGType. -/
inductive FVGType
  | bullish
  | bearish
deriving DecidableEq, Repr

/-- market.FVGStatus (partFill stands for the partial-fill status). -/
inductive FVGStatus
  | fresh
  | tested
  | partFill
  | filled
  | expired
deriving DecidableEq, Repr

/-- market.FVGConfig; only the fields read by detection and status update. -/
structure FVGConfig where
  minGapPercent : ℚ
  maxGapPercent : ℚ
  minVolumeRatio : ℚ
  maxAge : ℤ
  maxTouchCount : ℤ
  fillThreshold : ℚ
  requireVolConf : Bool
deriving DecidableEq, Repr

/-- defaultFVGConfig from types.go. -/
def defaultFVGConfig : FVGConfig :=
  { minGapPercent := 2/1000, maxGapPercent := 5/100, minVolumeRatio := 12/10,
    maxAge := 50, maxTouchCount := 3, fillThreshold := 8/10, requireVolConf := false }

/-- market.FairValueGap; display-only fields (ID, quality, validation,
volume context, times) omitted. -/
structure FairValueGap where
  typ : FVGType
  upperBound : ℚ
  lowerBound : ℚ
  centerPrice : ℚ
  width : ℚ
  widthPercent : ℚ
  originIndex : ℕ
  status : FVGStatus
  isActive : Bool
  isFilled : Bool
  isPartFill : Bool
  touchCount : ℕ
  fillProgress : ℚ
deriving DecidableEq, Repr

instance : Inhabited FairValueGap :=
  ⟨⟨FVGType.bullish, 0, 0, 0, 0, 0, 0, FVGStatus.fresh, false, false, false, 0, 0⟩⟩

/-- calculateAverageVolume with the source's clamping of both indices. -/
def calculateAverageVolume (klines : List Kline) (start end_ : ℤ) : ℚ :=
  let s := if start < 0 then 0 else start
  let e := if (klines.length : ℤ) ≤ end_ then (klines.length : ℤ) - 1 else end_
  if e ≤ s then 0
  else
    let seg := (klines.drop s.toNat).take (e - s + 1).toNat
    (seg.foldl (fun acc k => acc + k.volume) (0 : ℚ)) / (seg.length : ℚ)

/-- identifyBullishFVG: a gap at index i needs candle[i-1].high strictly
below candle[i+1].low, a gap width percentage within the configured band,
and (optionally) volume confirmation on the middle candle. -/
def identifyBullishFVG (cfg : FVGConfig) (klines : List Kline) (index : ℕ) :
    Option FairValueGap :=
  if index < 1 ∨ klines.length - 1 ≤ index then none
  else
    let prev := klines.getD (index - 1) default
    let curr := klines.getD index default
    let next := klines.getD (index + 1) default
    if next.low ≤ prev.high then none
    else
      let gapLow := prev.high
      let gapHigh := next.low
      let gapWidth := gapHigh - gapLow
      let gapWidthPercent := gapWidth / gapLow * 100
      if gapWidthPercent < cfg.minGapPercent * 100 ∨
          cfg.maxGapPercent * 100 < gapWidthPercent then none
      else if cfg.requireVolConf ∧
          curr.volume < calculateAverageVolume klines ((index : ℤ) - 10) index *
            cfg.minVolumeRatio then none
      else
        some { typ := FVGType.bullish, upperBound := gapHigh, lowerBound := gapLow,
               centerPrice := (gapHigh + gapLow) / 2, width := gapWidth,
               widthPercent := gapWidthPercent, originIndex := index,
               status := FVGStatus.fresh, isActive := true, isFilled := false,
               isPartFill := false, touchCount := 0, fillProgress := 0 }

/-- identifyBearishFVG: candle[i-1].low strictly above candle[i+1].high;
the width percentage is taken relative to the upper bound. -/
def identifyBearishFVG (cfg : FVGConfig) (klines : List Kline) (index : ℕ) :
    Option FairValueGap :=
  if index < 1 ∨ klines.length - 1 ≤ index then none
  else
    let prev := klines.getD (index - 1) default
    let curr := klines.getD index default
    let next := klines.getD (index + 1) default
    if prev.low ≤ next.high then none
    else
      let gapHigh := prev.low
      let gapLow := next.high
      let gapWidth := gapHigh - gapLow
      let gapWidthPercent := gapWidth / gapHigh * 100
      if gapWidthPercent < cfg.minGapPercent * 100 ∨
          cfg.maxGapPercent * 100 < gapWidthPercent then none
      else if cfg.requireVolConf ∧
          curr.volume < calculateAverageVolume klines ((index : ℤ) - 10) index *
            cfg.minVolumeRatio then none
      else
        some { typ := FVGType.bearish, upperBound := gapHigh, lowerBound := gapLow,
               centerPrice := (gapHigh + gapLow) / 2, width := gapWidth,
               widthPercent := gapWidthPercent, originIndex := index,
               status := FVGStatus.fresh, isActive := true, isFilled := false,
               isPartFill := false, touchCount := 0, fillProgress := 0 }

/-- The loop body of calculateFillProgress: a bullish gap is penetrated
downward from its upper bound, a bearish gap upward from its lower bound;
the running maximum penetration is kept. -/
def penStep (gap : FairValueGap) (maxPen : ℚ) (k : Kline) : ℚ :=
  match gap.typ with
  | FVGType.bullish =>
    if k.low ≤ gap.upperBound then
      let pen := gap.upperBound - k.low
      if maxPen < pen then pen else maxPen
    else maxPen
  | FVGType.bearish =>
    if gap.lowerBound ≤ k.high then
      let pen := k.high - gap.lowerBound
      if maxPen < pen then pen else maxPen
    else maxPen

/-- calculateFillProgress: the maximum penetration into the gap over the
candles after formation, normalized to the gap's width field and expressed
in percent.  The penetration is not capped at the far boundary. -/
def calculateFillProgress (gap : FairValueGap) (klines : List Kline)
    (startIndex : ℕ) : ℚ :=
  if klines.length - 1 ≤ startIndex then 0
  else
    let maxPenetration := (klines.drop (startIndex + 1)).foldl (penStep gap) (0 : ℚ)
    if gap.width ≤ 0 then 0 else maxPenetration / gap.width * 100

/-- doesCandleTouchFVG: the candle's range intersects the gap. -/
def doesCandleTouchFVG (k : Kline) (gap : FairValueGap) : Bool :=
  !(k.high < gap.lowerBound ∨ gap.upperBound < k.low)

/-- countTouches over the candles after the origin index. -/
def countTouches (gap : FairValueGap) (klines : List Kline) : ℕ :=
  if klines.length - 1 ≤ gap.originIndex then 0
  else ((klines.drop (gap.originIndex + 1)).filter
    (fun k => doesCandleTouchFVG k gap)).length

/-- The per-gap body of updateFVGStatuses.  The order of the passes is the
source's: expiry, then fill status, then touch status; the touch pass
overwrites the status set by the fill pass. -/
def updateFVGStatus (cfg : FVGConfig) (klines : List Kline)
    (gap : FairValueGap) : FairValueGap :=
  if klines.isEmpty then gap
  else
    let age : ℤ := (klines.length : ℤ) - (gap.originIndex : ℤ) - 1
    if cfg.maxAge < age then
      { gap with status := FVGStatus.expired, isActive := false }
    else
      let fillProgress := calculateFillProgress gap klines gap.originIndex
      let gap1 := { gap with fillProgress := fillProgress }
      let gap2 :=
        if cfg.fillThreshold * 100 ≤ fillProgress then
          { gap1 with status := FVGStatus.filled, isFilled := true, isActive := false }
        else if 20 < fillProgress then
          { gap1 with status := FVGStatus.partFill, isPartFill := true }
        else gap1
      let touchCount := countTouches gap klines
      let gap3 := { gap2 with touchCount := touchCount }
      if cfg.maxTouchCount < (touchCount : ℤ) then
        { gap3 with isActive := false }
      else if 0 < touchCount then
        { gap3 with status := FVGStatus.tested }
      else gap3

/-- The bullish/bearish gap lists of the FVG analyzer result. -/
structure FVGData where
  bullishFVGs : List FairValueGap
  bearishFVGs : List FairValueGap
deriving DecidableEq, Repr

instance : Inhabited FVGData := ⟨⟨[], []⟩⟩

/-- FVGAnalyzer.Analyze: nil (none) below three candles; otherwise detect
gaps at every admissible middle index and run the status update on each
(strength, quality, validation and statistics are display-only and
omitted). -/
def fvgAnalyze (cfg : FVGConfig) (klines : List Kline) : Option FVGData :=
  if klines.length < 3 then none
  else
    let bull := (List.range klines.length).filterMap (identifyBullishFVG cfg klines)
    let bear := (List.range klines.length).filterMap (identifyBearishFVG cfg klines)
    some { bullishFVGs := bull.map (updateFVGStatus cfg klines),
           bearishFVGs := bear.map (updateFVGStatus cfg klines) }

/-- A three-candle window with a bullish gap: candle 0 tops at 110, candle
2 bottoms at 110.5, so the middle index 1 carries a 0.45% gap. -/
def fvgWindow : List Kline :=
  [ { openTime := 0, open_ := 102, high := 110, low := 100, close := 108, volume := 10 },
    { openTime := 60000, open_ := 108, high := 115, low := 105, close := 114, volume := 12 },
    { openTime := 120000, open_ := 114, high := 120, low := 221/2, close := 119, volume := 15 } ]

/-- A four-candle window whose bullish gap [110, 112] at index 1 is later
overshot: candle 3 falls to 104, far below the gap's lower bound, giving a
penetration of 8 over a width of 2 (fill progress 400%). -/
def fillWindow : List Kline :=
  [ { openTime := 0, open_ := 102, high := 110, low := 100, close := 108, volume := 10 },
    { openTime := 60000, open_ := 108, high := 115, low := 105, close := 114, volume := 12 },
    { openTime := 120000, open_ := 114, high := 120, low := 112, close := 118, volume := 15 },
    { openTime := 180000, open_ := 118, high := 109, low := 104, close := 105, volume := 20 } ]

/-- Like fillWindow, but candle 3 only dips to 111, half-filling the gap. -/
def fillWindow2 : List Kline :=
  [ { openTime := 0, open_ := 102, high := 110, low := 100, close := 108, volume := 10 },
    { openTime := 60000, open_ := 108, high := 115, low := 105, close := 114, volume := 12 },
    { openTime := 120000, open_ := 114, high := 120, low := 112, close := 118, volume := 15 },
    { openTime := 180000, open_ := 118, high := 231/2, low := 111, close := 112, volume := 20 } ]

/-- The status update never changes a gap's type, bounds, width or origin. -/
theorem updateFVGStatus_preserves (cfg : FVGConfig) (klines : List Kline)
    (gap : FairValueGap) :
    (updateFVGStatus cfg klines gap).typ = gap.typ ∧
    (updateFVGStatus cfg klines gap).upperBound = gap.upperBound ∧
    (updateFVGStatus cfg klines gap).lowerBound = gap.lowerBound ∧
    (updateFVGStatus cfg klines gap).originIndex = gap.originIndex ∧
    (updateFVGStatus cfg klines gap).width = gap.width ∧
    (updateFVGStatus cfg klines gap).widthPercent = gap.widthPercent := by
  unfold updateFVGStatus
  dsimp only
  repeat' split
  all_goals exact ⟨rfl, rfl, rfl, rfl, rfl, rfl⟩

/-- Everything identifyBullishFVG guarantees about an emitted gap. -/
theorem identifyBullishFVG_spec (cfg : FVGConfig) (klines : List Kline) (i : ℕ)
    (gap : FairValueGap) (h : identifyBullishFVG cfg klines i = some gap) :
    1 ≤ i ∧ i + 1 < klines.length ∧
    gap.typ = FVGType.bullish ∧ gap.originIndex = i ∧
    gap.lowerBound = (klines.getD (i - 1) default).high ∧
    gap.upperBound = (klines.getD (i + 1) default).low ∧
    (klines.getD (i - 1) default).high < (klines.getD (i + 1) default).low ∧
    gap.widthPercent = (gap.upperBound - gap.lowerBound) / gap.lowerBound * 100 ∧
    cfg.minGapPercent * 100 ≤ gap.widthPercent ∧
    gap.widthPercent ≤ cfg.maxGapPercent * 100 := by
  unfold identifyBullishFVG at h
  split at h
  · exact absurd h (by simp)
  next hidx =>
  dsimp only at h
  split at h
  · exact absurd h (by simp)
  next hgap =>
  split at h
  · exact absurd h (by simp)
  next hpct =>
  split at h
  · exact absurd h (by simp)
  next hvol =>
  push_neg at hidx hpct
  obtain ⟨hi1, hi2⟩ := hidx
  obtain ⟨hmin, hmax⟩ := hpct
  obtain rfl := (Option.some.injEq _ _).mp h.symm
  refine ⟨Nat.one_le_iff_ne_zero.mpr (by omega), by omega, rfl, rfl, rfl, rfl, ?_, rfl,
    hmin, hmax⟩
  exact lt_of_not_le hgap

/-- Everything identifyBearishFVG guarantees about an emitted gap. -/
theorem identifyBearishFVG_spec (cfg : FVGConfig) (klines : List Kline) (i : ℕ)
    (gap : FairValueGap) (h : identifyBearishFVG cfg klines i = some gap) :
    1 ≤ i ∧ i + 1 < klines.length ∧
    gap.typ = FVGType.bearish ∧ gap.originIndex = i ∧
    gap.upperBound = (klines.getD (i - 1) default).low ∧
    gap.lowerBound = (klines.getD (i + 1) default).high ∧
    (klines.getD (i + 1) default).high < (klines.getD (i - 1) default).low ∧
    gap.widthPercent = (gap.upperBound - gap.lowerBound) / gap.upperBound * 100 ∧
    cfg.minGapPercent * 100 ≤ gap.widthPercent ∧
    gap.widthPercent ≤ cfg.maxGapPercent * 100 := by
  unfold identifyBearishFVG at h
  split at h
  · exact absurd h (by simp)
  next hidx =>
  dsimp only at h
  split at h
  · exact absurd h (by simp)
  next hgap =>
  split at h
  · exact absurd h (by simp)
  next hpct =>
  split at h
  · exact absurd h (by simp)
  next hvol =>
  push_neg at hidx hpct
  obtain ⟨hi1, hi2⟩ := hidx
  obtain ⟨hmin, hmax⟩ := hpct
  obtain rfl := (Option.some.injEq _ _).mp h.symm
  refine ⟨Nat.one_le_iff_ne_zero.mpr (by omega), by omega, rfl, rfl, rfl, rfl, ?_, rfl,
    hmin, hmax⟩
  exact lt_of_not_le hgap

/-- On a window of at least three candles the analyzer output is the
detected gap lists after status update. -/
theorem fvgAnalyze_eq (cfg : FVGConfig) (klines : List Kline)
    (hne : ¬ klines.length < 3) :
    fvgAnalyze cfg klines = some
      { bullishFVGs := ((List.range klines.length).filterMap
          (identifyBullishFVG cfg klines)).map (updateFVGStatus cfg klines),
        bearishFVGs := ((List.range klines.length).filterMap
          (identifyBearishFVG cfg klines)).map (updateFVGStatus cfg klines) } := by
  rw [fvgAnalyze, if_neg hne]

/-- C3: every emitted bullish FVG with middle index i has
candle[i-1].high < candle[i+1].low, its bounds are exactly those prices,
and its fractional width (relative to the lower bound) lies within
[min_gap_pct, max_gap_pct]; symmetrically for bearish gaps, whose
fractional width is taken relative to the upper bound. -/
theorem fvgAnalyze_gap_geometry (cfg : FVGConfig) (klines : List Kline)
    (h : (fvgAnalyze cfg klines).isSome) :
    (∀ gap ∈ ((fvgAnalyze cfg klines).get h).bullishFVGs,
      (klines.getD (gap.originIndex - 1) default).high <
        (klines.getD (gap.originIndex + 1) default).low ∧
      gap.lowerBound = (klines.getD (gap.originIndex - 1) default).high ∧
      gap.upperBound = (klines.getD (gap.originIndex + 1) default).low ∧
      cfg.minGapPercent ≤ (gap.upperBound - gap.lowerBound) / gap.lowerBound ∧
      (gap.upperBound - gap.lowerBound) / gap.lowerBound ≤ cfg.maxGapPercent) ∧
    (∀ gap ∈ ((fvgAnalyze cfg klines).get h).bearishFVGs,
      (klines.getD (gap.originIndex + 1) default).high <
        (klines.getD (gap.originIndex - 1) default).low ∧
      gap.lowerBound = (klines.getD (gap.originIndex + 1) default).high ∧
      gap.upperBound = (klines.getD (gap.originIndex - 1) default).low ∧
      cfg.minGapPercent ≤ (gap.upperBound - gap.lowerBound) / gap.upperBound ∧
      (gap.upperBound - gap.lowerBound) / gap.upperBound ≤ cfg.maxGapPercent) := by
  have hne : ¬ klines.length < 3 := by
    intro hc
    rw [fvgAnalyze, if_pos hc] at h
    simp at h
  have heq := fvgAnalyze_eq cfg klines hne
  constructor
  · intro gap hg
    rw [Option.get_of_mem h heq] at hg
    obtain ⟨g0, hg0, rfl⟩ := List.mem_map.mp hg
    obtain ⟨i, _, hsome⟩ := List.mem_filterMap.mp hg0
    obtain ⟨_, _, _, hidx, hlb, hub, hlt, hwp, hmin, hmax⟩ :=
      identifyBullishFVG_spec cfg klines i g0 hsome
    obtain ⟨-, hubp, hlbp, hop, -, hwpp⟩ := updateFVGStatus_preserves cfg klines g0
    rw [hubp, hlbp, hop, hidx, hlb, hub]
    rw [hwp] at hmin hmax
    refine ⟨hlt, rfl, rfl, ?_, ?_⟩
    · rw [← hub, ← hlb]
      linarith
    · rw [← hub, ← hlb]
      linarith
  · intro gap hg
    rw [Option.get_of_mem h heq] at hg
    obtain ⟨g0, hg0, rfl⟩ := List.mem_map.mp hg
    obtain ⟨i, _, hsome⟩ := List.mem_filterMap.mp hg0
    obtain ⟨_, _, _, hidx, hub, hlb, hlt, hwp, hmin, hmax⟩ :=
      identifyBearishFVG_spec cfg klines i g0 hsome
    obtain ⟨-, hubp, hlbp, hop, -, hwpp⟩ := updateFVGStatus_preserves cfg klines g0
    rw [hubp, hlbp, hop, hidx, hlb, hub]
    rw [hwp] at hmin hmax
    refine ⟨hlt, rfl, rfl, ?_, ?_⟩
    · rw [← hub, ← hlb]
      linarith
    · rw [← hub, ← hlb]
      linarith

/-- The first bullish gap the analyzer emits on fvgWindow. -/
def fvgWitnessGap : FairValueGap :=
  ((fvgAnalyze defaultFVGConfig fvgWindow).getD default).bullishFVGs.getD 0 default

set_option allowUnsafeReducibility true in
attribute [local semireducible] Rat.add Rat.mul Rat.inv Rat.sub in
unseal Nat.gcd in
/-- C3 (witness): the geometry at the concrete three-candle window. -/
theorem fvgAnalyze_gap_geometry_witness :
    (fvgWindow.getD (fvgWitnessGap.originIndex - 1) default).high <
      (fvgWindow.getD (fvgWitnessGap.originIndex + 1) default).low ∧
    fvgWitnessGap.lowerBound =
      (fvgWindow.getD (fvgWitnessGap.originIndex - 1) default).high ∧
    fvgWitnessGap.upperBound =
      (fvgWindow.getD (fvgWitnessGap.originIndex + 1) default).low ∧
    defaultFVGConfig.minGapPercent ≤
      (fvgWitnessGap.upperBound - fvgWitnessGap.lowerBound) / fvgWitnessGap.lowerBound ∧
    (fvgWitnessGap.upperBound - fvgWitnessGap.lowerBound) / fvgWitnessGap.lowerBound ≤
      defaultFVGConfig.maxGapPercent :=
  (fvgAnalyze_gap_geometry defaultFVGConfig fvgWindow (by decide)).1
    fvgWitnessGap (by decide)

set_option allowUnsafeReducibility true in
attribute [local semireducible] Rat.add Rat.mul Rat.inv Rat.sub in
unseal Nat.gcd in
/-- C6 (counterexample): on fillWindow the bullish gap reaches fill
progress 400, far beyond the default 80 threshold, and is_filled is set
with is_active cleared, yet the final status is tested, not filled: the
touch pass (1 touch, within the max of 3) runs after the fill pass and
overwrites the status. -/
theorem fvgFilled_status_overwritten :
    ((fvgAnalyze defaultFVGConfig fillWindow).getD default).bullishFVGs.map
      (fun g => (g.status, g.isFilled, g.isActive, g.fillProgress, g.touchCount)) =
      [(FVGStatus.tested, true, false, 400, 1)] ∧
    defaultFVGConfig.fillThreshold * 100 ≤ 400 ∧
    FVGStatus.tested ≠ FVGStatus.filled := by
  decide

/-- C6 (amended): for a gap within its maximum age, the update pass sets
is_filled and clears is_active whenever the fill progress reaches the
threshold, and stores the fill progress; but the final status is tested
whenever the touch count is between 1 and max_touch_count (the touch pass
overwrites the fill pass), and only otherwise reflects the fill level:
filled at threshold, partial fill above 20, else the prior status. -/
theorem updateFVGStatus_spec (cfg : FVGConfig) (klines : List Kline)
    (gap : FairValueGap) (hne : klines.isEmpty = false)
    (hage : (klines.length : ℤ) - (gap.originIndex : ℤ) - 1 ≤ cfg.maxAge) :
    (updateFVGStatus cfg klines gap).status =
      (if 0 < countTouches gap klines ∧
          (countTouches gap klines : ℤ) ≤ cfg.maxTouchCount then FVGStatus.tested
       else if cfg.fillThreshold * 100 ≤ calculateFillProgress gap klines gap.originIndex
       then FVGStatus.filled
       else if 20 < calculateFillProgress gap klines gap.originIndex
       then FVGStatus.partFill
       else gap.status) ∧
    (cfg.fillThreshold * 100 ≤ calculateFillProgress gap klines gap.originIndex →
      (updateFVGStatus cfg klines gap).isFilled = true ∧
      (updateFVGStatus cfg klines gap).isActive = false) ∧
    (updateFVGStatus cfg klines gap).fillProgress =
      calculateFillProgress gap klines gap.originIndex := by
  unfold updateFVGStatus
  rw [hne]
  dsimp only [Bool.false_eq_true, if_false]
  rw [if_neg (not_lt.mpr hage)]
  split_ifs <;> simp_all <;> omega

/-- The bullish gap detected (before status update) on fillWindow. -/
def fillGap0 : FairValueGap :=
  ((List.range fillWindow.length).filterMap
    (identifyBullishFVG defaultFVGConfig fillWindow)).getD 0 default

set_option allowUnsafeReducibility true in
attribute [local semireducible] Rat.add Rat.mul Rat.inv Rat.sub in
unseal Nat.gcd in
/-- C6 (witness): the amended status rule at the concrete filled gap. -/
theorem updateFVGStatus_spec_witness :
    (updateFVGStatus defaultFVGConfig fillWindow fillGap0).status =
      (if 0 < countTouches fillGap0 fillWindow ∧
          (countTouches fillGap0 fillWindow : ℤ) ≤ defaultFVGConfig.maxTouchCount
       then FVGStatus.tested
       else if defaultFVGConfig.fillThreshold * 100 ≤
          calculateFillProgress fillGap0 fillWindow fillGap0.originIndex
       then FVGStatus.filled
       else if 20 < calculateFillProgress fillGap0 fillWindow fillGap0.originIndex
       then FVGStatus.partFill
       else fillGap0.status) ∧
    ((updateFVGStatus defaultFVGConfig fillWindow fillGap0).isFilled = true ∧
      (updateFVGStatus defaultFVGConfig fillWindow fillGap0).isActive = false) ∧
    (updateFVGStatus defaultFVGConfig fillWindow fillGap0).fillProgress =
      calculateFillProgress fillGap0 fillWindow fillGap0.originIndex := by
  have h := updateFVGStatus_spec defaultFVGConfig fillWindow fillGap0 (by decide) (by decide)
  exact ⟨h.1, h.2.1 (by decide), h.2.2⟩

set_option allowUnsafeReducibility true in
attribute [local semireducible] Rat.add Rat.mul Rat.inv Rat.sub in
unseal Nat.gcd in
/-- C7 (counterexample): the fill progress computed on fillWindow is 400,
outside [0, 100]: the penetration of candle 3 (low 104, eight points past
the gap's upper bound 112) is normalized to the width 2 without being
capped at the far boundary. -/
theorem fillProgress_exceeds_100 :
    ((fvgAnalyze defaultFVGConfig fillWindow).getD default).bullishFVGs.map
      (fun g => g.fillProgress) = [400] ∧ ¬ ((400 : ℚ) ≤ 100) := by
  decide

/-- A foldl invariant: a predicate preserved by every step over members of
the list holds of the result. -/
theorem foldl_invariant {α β : Type} (P : α → Prop) (f : α → β → α) :
    ∀ (l : List β) (init : α), P init →
      (∀ acc b, b ∈ l → P acc → P (f acc b)) → P (l.foldl f init)
  | [], _, hinit, _ => hinit
  | b :: l, init, hinit, hstep =>
    foldl_invariant P f l (f init b) (hstep init b (List.mem_cons_self b l) hinit)
      (fun acc b' hb' hacc => hstep acc b' (List.mem_cons_of_mem b hb') hacc)

/-- C7 (amended): the fill progress is always nonnegative, and it is at
most 100 as long as no post-formation candle crosses the gap's far
boundary (for a bullish gap: no low below the lower bound; for a bearish
gap: no high above the upper bound); without that restriction it can
exceed 100 (fillProgress_exceeds_100). -/
theorem calculateFillProgress_range (gap : FairValueGap) (klines : List Kline)
    (startIndex : ℕ) (hwidth : gap.width = gap.upperBound - gap.lowerBound) :
    0 ≤ calculateFillProgress gap klines startIndex ∧
    (gap.typ = FVGType.bullish →
      (∀ k ∈ klines.drop (startIndex + 1), gap.lowerBound ≤ k.low) →
      calculateFillProgress gap klines startIndex ≤ 100) ∧
    (gap.typ = FVGType.bearish →
      (∀ k ∈ klines.drop (startIndex + 1), k.high ≤ gap.upperBound) →
      calculateFillProgress gap klines startIndex ≤ 100) := by
  unfold calculateFillProgress
  split
  · exact ⟨le_refl 0, fun _ _ => by norm_num, fun _ _ => by norm_num⟩
  by_cases hw : gap.width ≤ 0
  · rw [if_pos hw]
    exact ⟨le_refl 0, fun _ _ => by norm_num, fun _ _ => by norm_num⟩
  rw [if_neg hw]
  push_neg at hw
  have hnonneg : 0 ≤ (klines.drop (startIndex + 1)).foldl (penStep gap) (0 : ℚ) :=
    foldl_invariant (fun x => 0 ≤ x) (penStep gap) _ 0 (le_refl 0) (by
      intro acc k _ hacc
      unfold penStep
      cases gap.typ <;> dsimp only <;> split
      · split
        · linarith [lt_of_le_of_lt hacc (by assumption)]
        · exact hacc
      · exact hacc
      · split
        · linarith [lt_of_le_of_lt hacc (by assumption)]
        · exact hacc
      · exact hacc)
  have hfrac : ∀ hb : (klines.drop (startIndex + 1)).foldl (penStep gap) (0 : ℚ) ≤ gap.width,
      (klines.drop (startIndex + 1)).foldl (penStep gap) (0 : ℚ) / gap.width * 100 ≤ 100 := by
    intro hb
    rw [div_mul_eq_mul_div, div_le_iff₀ hw]
    nlinarith
  refine ⟨?_, ?_, ?_⟩
  · positivity
  · intro htyp hall
    refine hfrac (foldl_invariant (fun x => x ≤ gap.width) (penStep gap) _ 0 (le_of_lt hw) ?_)
    intro acc k hk hacc
    unfold penStep
    rw [htyp]
    dsimp only
    split
    · split
      · rw [hwidth]
        linarith [hall k hk]
      · exact hacc
    · exact hacc
  · intro htyp hall
    refine hfrac (foldl_invariant (fun x => x ≤ gap.width) (penStep gap) _ 0 (le_of_lt hw) ?_)
    intro acc k hk hacc
    unfold penStep
    rw [htyp]
    dsimp only
    split
    · split
      · rw [hwidth]
        linarith [hall k hk]
      · exact hacc
    · exact hacc

/-- The bullish gap detected (before status update) on fillWindow2. -/
def fill2Gap0 : FairValueGap :=
  ((List.range fillWindow2.length).filterMap
    (identifyBullishFVG defaultFVGConfig fillWindow2)).getD 0 default

set_option allowUnsafeReducibility true in
attribute [local semireducible] Rat.add Rat.mul Rat.inv Rat.sub in
unseal Nat.gcd in
/-- C7 (witness): on fillWindow2 no candle crosses the far boundary, and
the fill progress (50) lies in [0, 100]. -/
theorem calculateFillProgress_range_witness :
    0 ≤ calculateFillProgress fill2Gap0 fillWindow2 1 ∧
    calculateFillProgress fill2Gap0 fillWindow2 1 ≤ 100 := by
  have h := calculateFillProgress_range fill2Gap0 fillWindow2 1 (by decide)
  exact ⟨h.1, h.2.1 (by decide) (by decide)⟩

/-! ## Supply-demand zones (supply_demand.go) -/

/-- market.ZoneType. -/
inductive ZoneType
  | supply
  | demand
deriving DecidableEq, Repr

/-- market.SupplyDemandZone; only the fields the overlap filter reads. -/
structure SupplyDemandZone where
  zoneType : ZoneType
  upperBound : ℚ
  lowerBound : ℚ
  strength : ℚ
deriving DecidableEq, Repr

/-- zonesOverlap: the closed intervals [lower, upper] intersect. -/
def zonesOverlap (z1 z2 : SupplyDemandZone) : Bool :=
  !(z1.upperBound < z2.lowerBound ∨ z2.upperBound < z1.lowerBound)

/-- The descending-strength comparison passed to sort.Slice. -/
def strengthDesc (a b : SupplyDemandZone) : Prop := b.strength ≤ a.strength

instance : DecidableRel strengthDesc := fun a b =>
  inferInstanceAs (Decidable (b.strength ≤ a.strength))

instance : IsTotal SupplyDemandZone strengthDesc :=
  ⟨fun a b => le_total b.strength a.strength⟩

instance : IsTrans SupplyDemandZone strengthDesc :=
  ⟨fun _ _ _ h1 h2 => le_trans h2 h1⟩

/-- The greedy keep loop of filterOverlappingZones: walk the sorted list,
keeping each zone that overlaps none of the zones already kept. -/
def greedyKeep : List SupplyDemandZone → List SupplyDemandZone → List SupplyDemandZone
  | [], acc => acc
  | z :: rest, acc =>
    if acc.any (fun e => zonesOverlap z e) then greedyKeep rest acc
    else greedyKeep rest (acc ++ [z])

/-- filterOverlappingZones: sort by strength descending, then greedily
keep non-overlapping zones; lists of length at most one pass through. -/
def filterOverlappingZones (zones : List SupplyDemandZone) : List SupplyDemandZone :=
  if zones.length ≤ 1 then zones
  else greedyKeep (zones.insertionSort strengthDesc) []

theorem zonesOverlap_comm (z1 z2 : SupplyDemandZone) :
    zonesOverlap z1 z2 = zonesOverlap z2 z1 := by
  unfold zonesOverlap
  congr 1
  rw [decide_eq_decide]
  exact or_comm

/-- Zones already kept stay in the output of the greedy loop. -/
theorem greedyKeep_acc_mem : ∀ (l acc : List SupplyDemandZone) (e : SupplyDemandZone),
    e ∈ acc → e ∈ greedyKeep l acc
  | [], _, _, he => he
  | z :: rest, acc, e, he => by
    unfold greedyKeep
    split
    · exact greedyKeep_acc_mem rest acc e he
    · exact greedyKeep_acc_mem rest (acc ++ [z]) e (List.mem_append_left _ he)

/-- The greedy loop keeps the accumulator pairwise non-overlapping. -/
theorem greedyKeep_pairwise : ∀ (l acc : List SupplyDemandZone),
    acc.Pairwise (fun z1 z2 => zonesOverlap z1 z2 = false) →
    (greedyKeep l acc).Pairwise (fun z1 z2 => zonesOverlap z1 z2 = false)
  | [], _, hacc => hacc
  | z :: rest, acc, hacc => by
    unfold greedyKeep
    split
    · exact greedyKeep_pairwise rest acc hacc
    next hany =>
      refine greedyKeep_pairwise rest (acc ++ [z]) ?_
      rw [List.pairwise_append]
      refine ⟨hacc, List.pairwise_singleton _ _, ?_⟩
      intro a ha b hb
      rw [List.mem_singleton] at hb
      rw [hb, zonesOverlap_comm]
      rcases hov : zonesOverlap z a with _ | _
      · rfl
      · exact absurd (List.any_eq_true.mpr ⟨a, ha, hov⟩) hany

/-- Every zone of the sorted input that the greedy loop drops overlaps a
kept zone of greater or equal strength. -/
theorem greedyKeep_dropped : ∀ (l acc : List SupplyDemandZone),
    List.Sorted strengthDesc l →
    (∀ e ∈ acc, ∀ y ∈ l, y.strength ≤ e.strength) →
    ∀ z ∈ l, z ∉ greedyKeep l acc →
      ∃ e ∈ greedyKeep l acc, zonesOverlap z e = true ∧ z.strength ≤ e.strength
  | [], _, _, _, z, hz, _ => absurd hz (List.not_mem_nil z)
  | z0 :: rest, acc, hsorted, hlink, z, hz, hnot => by
    have hsorted' : List.Sorted strengthDesc rest := hsorted.of_cons
    have hz0rest : ∀ y ∈ rest, y.strength ≤ z0.strength := by
      intro y hy
      exact List.rel_of_sorted_cons hsorted y hy
    unfold greedyKeep at hnot ⊢
    by_cases hany : (acc.any fun e => zonesOverlap z0 e) = true
    <;> [rw [if_pos hany] at hnot ⊢; rw [if_neg hany] at hnot ⊢]
    · rcases List.mem_cons.mp hz with rfl | hzrest
      · obtain ⟨e, he, hov⟩ := List.any_eq_true.mp hany
        refine ⟨e, greedyKeep_acc_mem rest acc e he, by simpa using hov, ?_⟩
        exact hlink e he z (List.mem_cons_self _ _)
      · refine greedyKeep_dropped rest acc hsorted' ?_ z hzrest hnot
        intro e he y hy
        exact hlink e he y (List.mem_cons_of_mem _ hy)
    · rcases List.mem_cons.mp hz with rfl | hzrest
      · exact absurd (greedyKeep_acc_mem rest (acc ++ [z]) z
          (List.mem_append_right _ (List.mem_singleton_self z))) hnot
      · refine greedyKeep_dropped rest (acc ++ [z0]) hsorted' ?_ z hzrest hnot
        intro e he y hy
        rcases List.mem_append.mp he with he' | he'
        · exact hlink e he' y (List.mem_cons_of_mem _ hy)
        · rw [List.mem_singleton] at he'
          subst he'
          exact hz0rest y hy

/-- C4 (amended): after the overlap filter no two retained zones overlap,
and every input zone either survives or overlaps some retained zone of
greater or equal strength; the retained zone of an overlapping pair need
not be the stronger one (see the counterexample). -/
theorem filterOverlappingZones_spec (zones : List SupplyDemandZone) :
    (filterOverlappingZones zones).Pairwise
      (fun z1 z2 => zonesOverlap z1 z2 = false) ∧
    (∀ z ∈ zones, z ∈ filterOverlappingZones zones ∨
      ∃ e ∈ filterOverlappingZones zones,
        zonesOverlap z e = true ∧ z.strength ≤ e.strength) := by
  unfold filterOverlappingZones
  split
  next hlen =>
    constructor
    · rcases zones with _ | ⟨a, _ | ⟨b, t⟩⟩
      · exact List.Pairwise.nil
      · exact List.pairwise_singleton _ _
      · simp at hlen
    · intro z hz
      exact Or.inl hz
  next hlen =>
    constructor
    · exact greedyKeep_pairwise _ [] List.Pairwise.nil
    · intro z hz
      by_cases hmem : z ∈ greedyKeep (zones.insertionSort strengthDesc) []
      · exact Or.inl hmem
      · refine Or.inr ?_
        refine greedyKeep_dropped _ [] (List.sorted_insertionSort strengthDesc zones)
          (by intro e he; exact absurd he (List.not_mem_nil e)) z ?_ hmem
        exact ((zones.perm_insertionSort strengthDesc).mem_iff).mpr hz

/-- A strength-90 supply zone covering [0, 10]. -/
def zoneA : SupplyDemandZone :=
  { zoneType := ZoneType.supply, upperBound := 10, lowerBound := 0, strength := 90 }

/-- A strength-80 supply zone covering [9, 20]: overlaps both zoneA and zoneC. -/
def zoneB : SupplyDemandZone :=
  { zoneType := ZoneType.supply, upperBound := 20, lowerBound := 9, strength := 80 }

/-- A strength-70 supply zone covering [19, 30]. -/
def zoneC : SupplyDemandZone :=
  { zoneType := ZoneType.supply, upperBound := 30, lowerBound := 19, strength := 70 }

set_option allowUnsafeReducibility true in
attribute [local semireducible] Rat.add Rat.mul Rat.inv Rat.sub in
unseal Nat.gcd in
/-- C4 (counterexample): zoneB and zoneC overlap and zoneB is stronger,
yet the filter keeps zoneC and drops zoneB (zoneB lost earlier to the even
stronger zoneA, freeing zoneC): of two overlapping candidates the kept one
is not always the one with higher strength. -/
theorem filterOverlappingZones_keeps_weaker :
    zonesOverlap zoneB zoneC = true ∧ zoneC.strength < zoneB.strength ∧
    filterOverlappingZones [zoneB, zoneC, zoneA] = [zoneA, zoneC] ∧
    zoneB ∉ filterOverlappingZones [zoneB, zoneC, zoneA] := by
  decide

set_option allowUnsafeReducibility true in
attribute [local semireducible] Rat.add Rat.mul Rat.inv Rat.sub in
unseal Nat.gcd in
/-- C4 (witness): the amended statement at the three concrete zones, applied to
the dropped zoneB. -/
theorem filterOverlappingZones_spec_witness :
    zoneB ∈ filterOverlappingZones [zoneB, zoneC, zoneA] ∨
    ∃ e ∈ filterOverlappingZones [zoneB, zoneC, zoneA],
      zonesOverlap zoneB e = true ∧ zoneB.strength ≤ e.strength :=
  (filterOverlappingZones_spec [zoneB, zoneC, zoneA]).2 zoneB (by decide)

/-! ## Market phase (comprehensive_analysis.go, determineMarketPhase) -/

/-- market.TrendDirection. -/
inductive TrendDirection
  | up
  | down
  | flat
deriving DecidableEq, Repr

/-- market.MarketPhase. -/
inductive MarketPhase
  | accumulation
  | markup
  | distribution
  | markdown
  | sideways
deriving DecidableEq, Repr

/-- determineMarketPhase.  The Dow input is the overall trend strength and
direction when DowTheory and its TrendStrength are non-nil; the VP input
is the value-area concentration when VolumeProfile and its ValueArea are
non-nil.  Any fall-through of the source's if chain returns sideways. -/
def determineMarketPhase (dow : Option (ℚ × TrendDirection)) (vp : Option ℚ) :
    MarketPhase :=
  match dow with
  | some (trendStrength, direction) =>
    if 70 < trendStrength then
      if direction = TrendDirection.up then MarketPhase.markup
      else if direction = TrendDirection.down then MarketPhase.markdown
      else MarketPhase.sideways
    else if trendStrength < 30 then
      match vp with
      | some concentration =>
        if 2 < concentration then MarketPhase.accumulation
        else MarketPhase.distribution
      | none => MarketPhase.sideways
    else MarketPhase.sideways
  | none => MarketPhase.sideways

/-- C5 (counterexample): at trend strength 50 with concentration 3 the
code returns sideways, not the accumulation the claim requires for
"every other trend strength" with concentration above 2. -/
theorem determineMarketPhase_mid_strength :
    determineMarketPhase (some (50, TrendDirection.up)) (some 3) =
      MarketPhase.sideways ∧
    MarketPhase.sideways ≠ MarketPhase.accumulation := by
  decide

/-- C5 (amended): markup and markdown require trend strength above 70 with
the matching direction; the accumulation / distribution disambiguation by
concentration happens only below strength 30 (sideways there without VP
data); for strength in [30, 70] the phase is sideways regardless of the
volume profile. -/
theorem determineMarketPhase_spec (ts conc : ℚ) (dir : TrendDirection) :
    (70 < ts → determineMarketPhase (some (ts, dir)) (some conc) =
      (if dir = TrendDirection.up then MarketPhase.markup
       else if dir = TrendDirection.down then MarketPhase.markdown
       else MarketPhase.sideways)) ∧
    (30 ≤ ts → ts ≤ 70 →
      determineMarketPhase (some (ts, dir)) (some conc) = MarketPhase.sideways) ∧
    (ts < 30 → determineMarketPhase (some (ts, dir)) (some conc) =
      (if 2 < conc then MarketPhase.accumulation else MarketPhase.distribution)) ∧
    (ts < 30 → determineMarketPhase (some (ts, dir)) none = MarketPhase.sideways) := by
  refine ⟨?_, ?_, ?_, ?_⟩
  · intro h
    simp only [determineMarketPhase, if_pos h]
  · intro h1 h2
    simp only [determineMarketPhase, if_neg (not_lt.mpr h2), if_neg (not_lt.mpr h1)]
  · intro h
    have h70 : ¬ 70 < ts := by linarith
    simp only [determineMarketPhase, if_neg h70, if_pos h]
  · intro h
    have h70 : ¬ 70 < ts := by linarith
    simp only [determineMarketPhase, if_neg h70, if_pos h]

/-- C5 (witness): the amended rule at three concrete inputs: strength 75
up gives markup, strength 50 with concentration 3 gives sideways, strength
20 with concentration 3 gives accumulation. -/
theorem determineMarketPhase_spec_witness :
    determineMarketPhase (some (75, TrendDirection.up)) (some 1) =
      MarketPhase.markup ∧
    determineMarketPhase (some (50, TrendDirection.up)) (some 3) =
      MarketPhase.sideways ∧
    determineMarketPhase (some (20, TrendDirection.up)) (some 3) =
      MarketPhase.accumulation := by
  refine ⟨?_, ?_, ?_⟩
  · have h := (determineMarketPhase_spec 75 1 TrendDirection.up).1 (by norm_num)
    simpa using h
  · exact (determineMarketPhase_spec 50 3 TrendDirection.up).2.1
      (by norm_num) (by norm_num)
  · have h := (determineMarketPhase_spec 20 3 TrendDirection.up).2.2.1 (by norm_num)
    rw [h]
    norm_num

/-! ## Volume profile (VPVRAnalyzer) -/

/-- market.VPVRConfig; the fields read by Analyze. -/
structure VPVRConfig where
  tickSize : ℚ
  valueAreaPercent : ℚ
  minVolume : ℚ
  smoothingFactor : ℚ
deriving DecidableEq, Repr

/-- market.PriceLevel. -/
structure PriceLevel where
  price : ℚ
  volume : ℚ
  buyVolume : ℚ
  sellVolume : ℚ
  volumePercent : ℚ
  transactions : ℕ
  isPOC : Bool
  inValueArea : Bool
deriving DecidableEq, Repr

instance : Inhabited PriceLevel := ⟨⟨0, 0, 0, 0, 0, 0, false, false⟩⟩

/-- findPriceRange: the min low and max high across the window. -/
def findPriceRange (klines : List Kline) : ℚ × ℚ :=
  let first := klines.headD default
  klines.foldl (fun mm k =>
    (if k.low < mm.1 then k.low else mm.1, if mm.2 < k.high then k.high else mm.2))
    (first.low, first.high)

/-- The buy ratio of distributePriceVolume: base 0.6 plus the adjustment
for an up candle, base 0.4 minus it for a down candle, 0.5 for a doji,
clamped to [0.1, 0.9].  When high = low with close different from open the
Go division yields plus or minus infinity, which the clamp turns into 0.9
or 0.1; the stand-in values 1 and 0 (outside the clamp band) reproduce
exactly that behavior in ℚ. -/
def buyRatio (k : Kline) : ℚ :=
  let r0 : ℚ :=
    if k.open_ < k.close then
      (if k.high - k.low = 0 then 1
       else 6/10 + 2/10 * (k.close - k.open_) / (k.high - k.low))
    else if k.close < k.open_ then
      (if k.high - k.low = 0 then 0
       else 4/10 - 2/10 * (k.open_ - k.close) / (k.high - k.low))
    else 1/2
  goMax (1/10) (goMin (9/10) r0)

/-- roundToTick: snap a price to the tick grid anchored at minPrice. -/
def roundToTick (cfg : VPVRConfig) (price minPrice : ℚ) : ℚ :=
  minPrice + (goRound ((price - minPrice) / cfg.tickSize) : ℚ) * cfg.tickSize

/-- Insert a volume contribution into the level map (an association list
keyed by the level price; the map is sorted later, so insertion order is
immaterial). -/
def addToLevel (m : List PriceLevel) (levelPrice vpl bvpl svpl : ℚ) :
    List PriceLevel :=
  if m.any (fun l => l.price = levelPrice) then
    m.map (fun l => if l.price = levelPrice then
      { l with volume := l.volume + vpl, buyVolume := l.buyVolume + bvpl,
               sellVolume := l.sellVolume + svpl,
               transactions := l.transactions + 1 } else l)
  else
    m ++ [{ price := levelPrice, volume := vpl, buyVolume := bvpl,
            sellVolume := svpl, volumePercent := 0, transactions := 1,
            isPOC := false, inValueArea := false }]

/-- distributePriceVolume: spread the candle's volume uniformly over the
tick-grid prices from low to high (the loop from low to high in steps of
the tick size runs floor((high-low)/tick)+1 times for a positive tick,
exactly as the exact-arithmetic Go loop would). -/
def distributePriceVolume (cfg : VPVRConfig) (k : Kline)
    (m : List PriceLevel) (minPrice : ℚ) : List PriceLevel :=
  let priceRange0 := k.high - k.low
  let priceRange := if priceRange0 = 0 then cfg.tickSize else priceRange0
  let numLevels0 := goTrunc (priceRange / cfg.tickSize) + 1
  let numLevels := if numLevels0 = 0 then 1 else numLevels0
  let volumePerLevel := k.volume / (numLevels : ℚ)
  let br := buyRatio k
  let buyVolumePerLevel := volumePerLevel * br
  let sellVolumePerLevel := volumePerLevel * (1 - br)
  let iterCount := if k.high < k.low then 0
    else (⌊(k.high - k.low) / cfg.tickSize⌋.toNat + 1)
  (List.range iterCount).foldl (fun mm j =>
    let price := k.low + (j : ℚ) * cfg.tickSize
    let levelPrice := roundToTick cfg price minPrice
    addToLevel mm levelPrice volumePerLevel buyVolumePerLevel sellVolumePerLevel) m

/-- The ascending-price comparison passed to sort.Slice. -/
def priceAsc (a b : PriceLevel) : Prop := a.price ≤ b.price

instance : DecidableRel priceAsc := fun a b =>
  inferInstanceAs (Decidable (a.price ≤ b.price))

instance : IsTotal PriceLevel priceAsc := ⟨fun a b => le_total a.price b.price⟩

instance : IsTrans PriceLevel priceAsc :=
  ⟨fun _ _ _ h1 h2 => le_trans h1 h2⟩

/-- smoothVolumes: centered moving average of width int(smoothing_factor);
buy and sell volumes are rescaled by the smoothing ratio (division by a
zero level volume is the one ℚ-vs-Go divergence; it only affects the
buy/sell fields of zero-volume bins). -/
def smoothVolumes (cfg : VPVRConfig) (levels : List PriceLevel) :
    List PriceLevel :=
  if levels.length < 3 ∨ cfg.smoothingFactor ≤ 1 then levels
  else
    let n := levels.length
    let window := goTrunc cfg.smoothingFactor
    let smoothed := (List.range n).map (fun i =>
      let s0 : ℤ := (i : ℤ) - window / 2
      let e0 : ℤ := (i : ℤ) + window / 2
      let s := if s0 < 0 then 0 else s0
      let e := if (n : ℤ) ≤ e0 then (n : ℤ) - 1 else e0
      let seg := (levels.drop s.toNat).take (e - s + 1).toNat
      (seg.foldl (fun acc l => acc + l.volume) (0 : ℚ)) / (seg.length : ℚ))
    (List.range n).map (fun i =>
      let l := levels.getD i default
      let sm := smoothed.getD i 0
      let ratio := sm / l.volume
      { l with volume := sm, buyVolume := l.buyVolume * ratio,
               sellVolume := l.sellVolume * ratio })

/-- calculatePriceLevels, in state-passing style: the returned config is
the analyzer's config after the call, which the source mutates in place
when the bin count would exceed 200. -/
def calculatePriceLevels (cfg : VPVRConfig) (klines : List Kline) :
    List PriceLevel × VPVRConfig :=
  if klines.isEmpty then ([], cfg)
  else
    let mm := findPriceRange klines
    let minPrice := mm.1
    let priceRange := mm.2 - mm.1
    let levelCount := goTrunc (priceRange / cfg.tickSize)
    let cfg2 := if 200 < levelCount then { cfg with tickSize := priceRange / 200 }
      else cfg
    let m := klines.foldl (fun acc k => distributePriceVolume cfg2 k acc minPrice) []
    let levels0 := m.filter (fun l => cfg2.minVolume ≤ l.volume)
    let levels1 := levels0.insertionSort priceAsc
    let totalVolume := levels1.foldl (fun acc l => acc + l.volume) (0 : ℚ)
    let levels2 := if 0 < totalVolume then
        levels1.map (fun l => { l with volumePercent := l.volume / totalVolume * 100 })
      else levels1
    let levels3 := if 1 < cfg2.smoothingFactor then smoothVolumes cfg2 levels2
      else levels2
    (levels3, cfg2)

/-- The loop body of findPOC: move to level i when it is strictly heavier
than the current best. -/
def pocStep (levels : List PriceLevel) (best i : ℕ) : ℕ :=
  if (levels.getD best default).volume < (levels.getD i default).volume then i
  else best

/-- findPOC as an index: the first level of maximum volume (the source
folds with a strict comparison, so the first maximum wins). -/
def findPOCIdx (levels : List PriceLevel) : ℕ :=
  (List.range levels.length).foldl (pocStep levels) 0

/-- market.ValueArea; the fields the claims read. -/
structure ValueArea where
  high : ℚ
  low : ℚ
  volumePercent : ℚ
  concentration : ℚ
deriving DecidableEq, Repr

/-- calculateConcentration: value-area volume share over its bin share. -/
def calculateConcentration (levels : List PriceLevel)
    (lowerIndex upperIndex : ℕ) (valueAreaVolume totalVolume : ℚ) : ℚ :=
  if totalVolume ≤ 0 ∨ upperIndex ≤ lowerIndex then 0
  else
    let volumeRatio := valueAreaVolume / totalVolume
    let priceRatio := ((upperIndex - lowerIndex + 1 : ℕ) : ℚ) / (levels.length : ℚ)
    if priceRatio ≤ 0 then 0 else volumeRatio / priceRatio

/-- The expansion loop of calculateValueArea: while the accumulated volume
is below target, expand toward the side with the larger next-bin volume
(an out-of-range side contributes volume 0, as in the source's guarded
reads).  The loop is driven by fuel; each productive step moves an index,
so the level count is always enough fuel. -/
def vaLoop (levels : List PriceLevel) (targetVolume : ℚ) :
    ℕ → ℚ × ℕ × ℕ → ℚ × ℕ × ℕ
  | 0, st => st
  | fuel + 1, (acc, upper, lower) =>
    if targetVolume ≤ acc then (acc, upper, lower)
    else
      let upperVolume := if upper < levels.length - 1 then
        (levels.getD (upper + 1) default).volume else 0
      let lowerVolume := if 0 < lower then
        (levels.getD (lower - 1) default).volume else 0
      if lowerVolume ≤ upperVolume ∧ upper < levels.length - 1 then
        vaLoop levels targetVolume fuel (acc + upperVolume, upper + 1, lower)
      else if 0 < lower then
        vaLoop levels targetVolume fuel (acc + lowerVolume, upper, lower - 1)
      else if upper < levels.length - 1 then
        vaLoop levels targetVolume fuel (acc + upperVolume, upper + 1, lower)
      else (acc, upper, lower)

/-- calculateValueArea: expand from the POC index on both sides until the
configured coverage of the total volume is reached. -/
def calculateValueArea (cfg : VPVRConfig) (levels : List PriceLevel)
    (totalVolume : ℚ) : ValueArea :=
  if levels.isEmpty ∨ totalVolume ≤ 0 then ⟨0, 0, 0, 0⟩
  else
    let targetVolume := totalVolume * cfg.valueAreaPercent
    let pocIndex := findPOCIdx levels
    let st := vaLoop levels targetVolume levels.length
      ((levels.getD pocIndex default).volume, pocIndex, pocIndex)
    let high := (levels.getD st.2.1 default).price
    let low := (levels.getD st.2.2 default).price
    let concentration := calculateConcentration levels st.2.2 st.2.1 st.1 totalVolume
    ⟨high, low, st.1 / totalVolume * 100, concentration⟩

/-- findValueAreaBounds: start from the value area bounds and widen by any
level already flagged in the value area (no level is flagged at the point
of the call, so this is the identity adjustment). -/
def findValueAreaBounds (levels : List PriceLevel) (va : ValueArea) : ℚ × ℚ :=
  levels.foldl (fun b l =>
    if l.inValueArea then
      (if b.1 < l.price then l.price else b.1,
       if l.price < b.2 then l.price else b.2)
    else b) (va.high, va.low)

/-- markValueAreaLevels: a level is in the value area exactly when its
price lies in [val, vah]. -/
def markValueAreaLevels (levels : List PriceLevel) (val vah : ℚ) :
    List PriceLevel :=
  levels.map (fun l => { l with inValueArea := decide (val ≤ l.price ∧ l.price ≤ vah) })

/-- market.VolumeProfile; the fields the claims read. -/
structure VolumeProfile where
  poc : PriceLevel
  vah : ℚ
  val : ℚ
  valueArea : ValueArea
  levels : List PriceLevel
deriving DecidableEq, Repr

instance : Inhabited VolumeProfile := ⟨⟨default, 0, 0, ⟨0, 0, 0, 0⟩, []⟩⟩

/-- The profile-building tail of Analyze, once the level list is known to
be nonempty: total volume (the only field of the volume statistics the
later steps read), POC flagging (the source mutates the slice element the
POC pointer refers to), value area, bounds, and the value-area marking
that the POC pointer also observes. -/
def vpvrBuild (cfg2 : VPVRConfig) (levels : List PriceLevel) : VolumeProfile :=
  let totalVolume := levels.foldl (fun acc l => acc + l.volume) (0 : ℚ)
  let pocIdx := findPOCIdx levels
  let levelsP := levels.set pocIdx
    { levels.getD pocIdx default with isPOC := true }
  let va := calculateValueArea cfg2 levelsP totalVolume
  let bounds := findValueAreaBounds levelsP va
  let levelsM := markValueAreaLevels levelsP bounds.2 bounds.1
  { poc := levelsM.getD pocIdx default, vah := bounds.1, val := bounds.2,
    valueArea := va, levels := levelsM }

/-- VPVRAnalyzer.Analyze in state-passing style: the second component is
the receiver's config after the call. -/
def vpvrAnalyze (cfg : VPVRConfig) (klines : List Kline) :
    Option VolumeProfile × VPVRConfig :=
  if klines.isEmpty then (none, cfg)
  else
    let lc := calculatePriceLevels cfg klines
    if lc.1.isEmpty then (none, lc.2)
    else (some (vpvrBuild lc.2 lc.1), lc.2)

/-- The POC fold keeps a running maximum: the result dominates the seed
and every scanned index, and is either the seed or a scanned index. -/
theorem pocFold_spec (levels : List PriceLevel) :
    ∀ (is : List ℕ) (best : ℕ),
      (levels.getD best default).volume ≤
        (levels.getD (is.foldl (pocStep levels) best) default).volume ∧
      (∀ i ∈ is, (levels.getD i default).volume ≤
        (levels.getD (is.foldl (pocStep levels) best) default).volume) ∧
      (is.foldl (pocStep levels) best = best ∨ is.foldl (pocStep levels) best ∈ is)
  | [], best => ⟨le_refl _, by simp, Or.inl rfl⟩
  | i :: is, best => by
    have hstep : (levels.getD best default).volume ≤
        (levels.getD (pocStep levels best i) default).volume := by
      unfold pocStep
      split
      · exact le_of_lt (by assumption)
      · exact le_refl _
    have hstepi : (levels.getD i default).volume ≤
        (levels.getD (pocStep levels best i) default).volume := by
      unfold pocStep
      split
      · exact le_refl _
      · exact le_of_not_lt (by assumption)
    have IH := pocFold_spec levels is (pocStep levels best i)
    rw [List.foldl_cons]
    refine ⟨le_trans hstep IH.1, ?_, ?_⟩
    · intro j hj
      rcases List.mem_cons.mp hj with rfl | hj'
      · exact le_trans hstepi IH.1
      · exact IH.2.1 j hj'
    · rcases IH.2.2 with h | h
      · rw [h]
        unfold pocStep
        split
        · exact Or.inr (List.mem_cons_self _ _)
        · exact Or.inl rfl
      · exact Or.inr (List.mem_cons_of_mem _ h)

theorem findPOCIdx_lt (levels : List PriceLevel) (hne : levels ≠ []) :
    findPOCIdx levels < levels.length := by
  rcases (pocFold_spec levels (List.range levels.length) 0).2.2 with h | h
  · rw [findPOCIdx, h]
    exact List.length_pos.mpr hne
  · exact List.mem_range.mp h

theorem findPOCIdx_max (levels : List PriceLevel) :
    ∀ i < levels.length, (levels.getD i default).volume ≤
      (levels.getD (findPOCIdx levels) default).volume := fun i hi =>
  (pocFold_spec levels (List.range levels.length) 0).2.1 i (List.mem_range.mpr hi)

/-- The profile built on a nonempty level list: the POC is one of the
levels, carries the is_poc flag, has the maximum (post-smoothing) volume,
and a level's in_value_area flag holds exactly when its price lies within
[VAL, VAH]. -/
theorem vpvrBuild_spec (cfg2 : VPVRConfig) (levels : List PriceLevel)
    (hne : levels ≠ []) :
    (vpvrBuild cfg2 levels).poc ∈ (vpvrBuild cfg2 levels).levels ∧
    (vpvrBuild cfg2 levels).poc.isPOC = true ∧
    (∀ l ∈ (vpvrBuild cfg2 levels).levels,
      l.volume ≤ (vpvrBuild cfg2 levels).poc.volume) ∧
    (∀ l ∈ (vpvrBuild cfg2 levels).levels,
      l.inValueArea = true ↔
        (vpvrBuild cfg2 levels).val ≤ l.price ∧
        l.price ≤ (vpvrBuild cfg2 levels).vah) := by
  have hplt : findPOCIdx levels < levels.length := findPOCIdx_lt levels hne
  unfold vpvrBuild markValueAreaLevels
  dsimp only
  set pocIdx := findPOCIdx levels with hpi
  set lp : PriceLevel := { levels.getD pocIdx default with isPOC := true } with hlp
  set levelsP := levels.set pocIdx lp with hlP
  set va := calculateValueArea cfg2 levelsP
    (levels.foldl (fun acc l => acc + l.volume) 0) with hva
  set bounds := findValueAreaBounds levelsP va with hbounds
  set mark := fun l : PriceLevel =>
    { l with inValueArea := decide (bounds.2 ≤ l.price ∧ l.price ≤ bounds.1) } with hmark
  have hlenP : levelsP.length = levels.length := List.length_set levels pocIdx lp
  have hpltP : pocIdx < levelsP.length := by rw [hlenP]; exact hplt
  have hpltM : pocIdx < (levelsP.map mark).length := by
    rw [List.length_map]; exact hpltP
  have hgetP : levelsP[pocIdx] = lp := List.getElem_set_self hpltP
  have hpocM : (levelsP.map mark).getD pocIdx default = mark lp := by
    rw [List.getD_eq_getElem _ _ hpltM, List.getElem_map, hgetP]
  refine ⟨?_, ?_, ?_, ?_⟩
  · rw [hpocM]
    exact List.mem_map.mpr ⟨lp, hgetP ▸ List.getElem_mem hpltP, rfl⟩
  · rw [hpocM]
  · intro l hl
    rw [hpocM]
    obtain ⟨l0, hl0, rfl⟩ := List.mem_map.mp hl
    show l0.volume ≤ lp.volume
    rcases List.mem_or_eq_of_mem_set hl0 with hmem | rfl
    · obtain ⟨i, hi, rfl⟩ := List.mem_iff_getElem.mp hmem
      rw [← List.getD_eq_getElem _ default hi]
      exact findPOCIdx_max levels i hi
    · exact le_refl _
  · intro l hl
    obtain ⟨l0, _, rfl⟩ := List.mem_map.mp hl
    show decide (bounds.2 ≤ l0.price ∧ l0.price ≤ bounds.1) = true ↔ _
    rw [decide_eq_true_iff]

/-- Analyze on a window that yields a profile: the profile is the build
over the computed level list. -/
theorem vpvrAnalyze_eq (cfg : VPVRConfig) (klines : List Kline)
    (h1 : klines.isEmpty = false)
    (h2 : (calculatePriceLevels cfg klines).1.isEmpty = false) :
    vpvrAnalyze cfg klines =
      (some (vpvrBuild (calculatePriceLevels cfg klines).2
        (calculatePriceLevels cfg klines).1), (calculatePriceLevels cfg klines).2) := by
  simp only [vpvrAnalyze, h1, h2, Bool.false_eq_true, if_false]

/-- C8 (amended): in every profile the analyzer returns, the POC level is
one of the output levels, carries the is_poc flag, and has the maximum
volume field; a level's in_value_area flag holds exactly when VAL <= price
<= VAH.  With a smoothing factor above 1 the POC maximizes the smoothed
volume but not necessarily volume_percent, which is computed before
smoothing (see the counterexample). -/
theorem vpvrAnalyze_poc_value_area (cfg : VPVRConfig) (klines : List Kline)
    (h : ((vpvrAnalyze cfg klines).1).isSome) :
    (((vpvrAnalyze cfg klines).1).get h).poc ∈
      (((vpvrAnalyze cfg klines).1).get h).levels ∧
    (((vpvrAnalyze cfg klines).1).get h).poc.isPOC = true ∧
    (∀ l ∈ (((vpvrAnalyze cfg klines).1).get h).levels,
      l.volume ≤ (((vpvrAnalyze cfg klines).1).get h).poc.volume) ∧
    (∀ l ∈ (((vpvrAnalyze cfg klines).1).get h).levels,
      l.inValueArea = true ↔
        (((vpvrAnalyze cfg klines).1).get h).val ≤ l.price ∧
        l.price ≤ (((vpvrAnalyze cfg klines).1).get h).vah) := by
  have h1 : klines.isEmpty = false := by
    rcases he : klines.isEmpty with _ | _
    · rfl
    · rw [vpvrAnalyze, if_pos he] at h
      simp at h
  have h2 : (calculatePriceLevels cfg klines).1.isEmpty = false := by
    rcases he : (calculatePriceLevels cfg klines).1.isEmpty with _ | _
    · rfl
    · rw [vpvrAnalyze, if_neg (by rw [h1]; exact Bool.false_ne_true)] at h
      dsimp only at h
      rw [if_pos he] at h
      simp at h
  have heq := vpvrAnalyze_eq cfg klines h1 h2
  have hget : ((vpvrAnalyze cfg klines).1).get h =
      vpvrBuild (calculatePriceLevels cfg klines).2 (calculatePriceLevels cfg klines).1 := by
    apply Option.get_of_mem
    rw [heq]
    rfl
  rw [hget]
  exact vpvrBuild_spec _ _ (by
    intro hc
    rw [hc] at h2
    simp at h2)

/-- A doji candle whose whole range sits at one price. -/
def flatCandle (t : ℤ) (p v : ℚ) : Kline :=
  { openTime := t, open_ := p, high := p, low := p, close := p, volume := v }

/-- Five one-price candles giving (half-)volumes 10, 1, 8, 8, 8 on the
bins 100..104. -/
def vpWindow : List Kline :=
  [flatCandle 0 100 20, flatCandle 1 101 2, flatCandle 2 102 16,
   flatCandle 3 103 16, flatCandle 4 104 16]

/-- A volume-profile config with smoothing window 3. -/
def vpSmoothCfg : VPVRConfig :=
  { tickSize := 1, valueAreaPercent := 7/10, minVolume := 0, smoothingFactor := 3 }

/-- A volume-profile config without smoothing. -/
def vpPlainCfg : VPVRConfig :=
  { tickSize := 1, valueAreaPercent := 7/10, minVolume := 0, smoothingFactor := 1 }

set_option allowUnsafeReducibility true in
attribute [local semireducible] Rat.add Rat.mul Rat.inv Rat.sub in
unseal Nat.gcd in
/-- C8 (counterexample): with smoothing factor 3 on vpWindow the POC is
the bin at 103 (maximal smoothed volume) with volume_percent 160/7, but
the bin at 100 has volume_percent 200/7 > 160/7: volume_percent is
computed before smoothing, so the POC need not maximize it. -/
theorem poc_not_max_volumePercent :
    ((vpvrAnalyze vpSmoothCfg vpWindow).1.getD default).poc.price = 103 ∧
    ((vpvrAnalyze vpSmoothCfg vpWindow).1.getD default).poc.volumePercent = 160/7 ∧
    (((vpvrAnalyze vpSmoothCfg vpWindow).1.getD default).levels.getD 0 default).price
      = 100 ∧
    (((vpvrAnalyze vpSmoothCfg vpWindow).1.getD
      default).levels.getD 0 default).volumePercent = 200/7 ∧
    ((vpvrAnalyze vpSmoothCfg vpWindow).1.getD default).levels.getD 0 default ∈
      ((vpvrAnalyze vpSmoothCfg vpWindow).1.getD default).levels ∧
    ¬ ((200 : ℚ)/7 ≤ 160/7) := by
  decide

def vpOneCandle : List Kline := [flatCandle 0 100 10]

set_option allowUnsafeReducibility true in
attribute [local semireducible] Rat.add Rat.mul Rat.inv Rat.sub in
unseal Nat.gcd in
/-- C8 (witness): the amended POC and value-area facts on a one-candle
profile, instantiated at its single level. -/
theorem vpvrAnalyze_poc_value_area_witness :
    ((vpvrAnalyze vpPlainCfg vpOneCandle).1.get (by decide)).poc ∈
      ((vpvrAnalyze vpPlainCfg vpOneCandle).1.get (by decide)).levels ∧
    ((vpvrAnalyze vpPlainCfg vpOneCandle).1.get (by decide)).poc.isPOC = true ∧
    (((vpvrAnalyze vpPlainCfg vpOneCandle).1.get (by decide)).levels.getD 0
        default).volume ≤
      ((vpvrAnalyze vpPlainCfg vpOneCandle).1.get (by decide)).poc.volume ∧
    ((((vpvrAnalyze vpPlainCfg vpOneCandle).1.get (by decide)).levels.getD 0
        default).inValueArea = true ↔
      ((vpvrAnalyze vpPlainCfg vpOneCandle).1.get (by decide)).val ≤
        (((vpvrAnalyze vpPlainCfg vpOneCandle).1.get (by decide)).levels.getD 0
          default).price ∧
      (((vpvrAnalyze vpPlainCfg vpOneCandle).1.get (by decide)).levels.getD 0
          default).price ≤
        ((vpvrAnalyze vpPlainCfg vpOneCandle).1.get (by decide)).vah) := by
  have h := vpvrAnalyze_poc_value_area vpPlainCfg vpOneCandle (by decide)
  exact ⟨h.1, h.2.1, h.2.2.1 _ (by decide), h.2.2.2 _ (by decide)⟩

/-- C9 (amended): for a candle with high > low the buy fraction is the
clamp to [0.1, 0.9] of 0.6 + 0.2 (close-open)/(high-low) for an up
candle, 0.4 - 0.2 (open-close)/(high-low) for a down candle and 0.5 for a
doji (base 0.6 / 0.4, not the claimed 0.5); with high = low and open =
close the split is 0.5 / 0.5. -/
theorem buyRatio_spec (k : Kline) :
    (k.low < k.high →
      buyRatio k = goMax (1/10) (goMin (9/10)
        (if k.open_ < k.close then
          6/10 + 2/10 * (k.close - k.open_) / (k.high - k.low)
         else if k.close < k.open_ then
          4/10 - 2/10 * (k.open_ - k.close) / (k.high - k.low)
         else 1/2))) ∧
    (k.high = k.low → k.open_ = k.close → buyRatio k = 1/2) := by
  constructor
  · intro h
    have hne : ¬ (k.high - k.low = 0) := sub_ne_zero.mpr (ne_of_gt h)
    unfold buyRatio
    rw [if_neg hne, if_neg hne]
  · intro h1 h2
    unfold buyRatio
    rw [h2, if_neg (lt_irrefl k.close), if_neg (lt_irrefl k.close)]
    norm_num [goMin, goMax]

/-- An up candle: open 100, close 110, low 100, high 120. -/
def upCandle : Kline :=
  { openTime := 0, open_ := 100, high := 120, low := 100, close := 110, volume := 10 }

set_option allowUnsafeReducibility true in
attribute [local semireducible] Rat.add Rat.mul Rat.inv Rat.sub in
unseal Nat.gcd in
/-- C9 (counterexample): on upCandle the code's buy fraction is 0.7
(= 0.6 + 0.2 * 0.5), while the claimed formula 0.5 + 0.2 * 0.5 clamped
gives 0.6. -/
theorem buyRatio_base_counterexample :
    buyRatio upCandle = 7/10 ∧
    goMax (1/10) (goMin (9/10)
      (1/2 + 2/10 * (upCandle.close - upCandle.open_) /
        (upCandle.high - upCandle.low))) = 6/10 ∧
    (7/10 : ℚ) ≠ 6/10 := by
  decide

set_option allowUnsafeReducibility true in
attribute [local semireducible] Rat.add Rat.mul Rat.inv Rat.sub in
unseal Nat.gcd in
/-- C9 (witness): the amended formula at upCandle and the equal split at a
doji candle. -/
theorem buyRatio_spec_witness :
    buyRatio upCandle = goMax (1/10) (goMin (9/10)
      (if upCandle.open_ < upCandle.close then
        6/10 + 2/10 * (upCandle.close - upCandle.open_) /
          (upCandle.high - upCandle.low)
       else if upCandle.close < upCandle.open_ then
        4/10 - 2/10 * (upCandle.open_ - upCandle.close) /
          (upCandle.high - upCandle.low)
       else 1/2)) ∧
    buyRatio (flatCandle 0 100 10) = 1/2 :=
  ⟨(buyRatio_spec upCandle).1 (by decide),
   (buyRatio_spec (flatCandle 0 100 10)).2 rfl rfl⟩

/-- C10: when the window's price range divided by the configured tick size
exceeds 200 bins, Analyze overwrites the stored tick size with range/200,
so the configuration read back afterwards differs from the constructed
one whenever the latter is not already range/200. -/
theorem vpvrAnalyze_config_effect (cfg : VPVRConfig) (klines : List Kline)
    (hne : klines.isEmpty = false)
    (hcount : 200 < goTrunc
      (((findPriceRange klines).2 - (findPriceRange klines).1) / cfg.tickSize)) :
    (vpvrAnalyze cfg klines).2.tickSize =
      ((findPriceRange klines).2 - (findPriceRange klines).1) / 200 ∧
    (cfg.tickSize ≠ ((findPriceRange klines).2 - (findPriceRange klines).1) / 200 →
      (vpvrAnalyze cfg klines).2.tickSize ≠ cfg.tickSize) := by
  have hcp : (calculatePriceLevels cfg klines).2 =
      { cfg with tickSize :=
          ((findPriceRange klines).2 - (findPriceRange klines).1) / 200 } := by
    simp only [calculatePriceLevels, hne, Bool.false_eq_true, if_false]
    rw [if_pos hcount]
  have h2 : (vpvrAnalyze cfg klines).2 = (calculatePriceLevels cfg klines).2 := by
    simp only [vpvrAnalyze, hne, Bool.false_eq_true, if_false]
    split <;> rfl
  constructor
  · rw [h2, hcp]
  · intro hdiff
    rw [h2, hcp]
    exact fun hc => hdiff hc.symm

def rangeWindow : List Kline := [flatCandle 0 100 10, flatCandle 1 104 10]

def vpTickCfg : VPVRConfig :=
  { tickSize := 1/100, valueAreaPercent := 7/10, minVolume := 0, smoothingFactor := 1 }

set_option allowUnsafeReducibility true in
attribute [local semireducible] Rat.add Rat.mul Rat.inv Rat.sub in
unseal Nat.gcd in
/-- C10 (witness): a two-candle window of range 4 with tick size 0.01
would need 400 bins; after Analyze the stored tick size is 4/200 = 0.02,
different from the constructed 0.01. -/
theorem vpvrAnalyze_config_effect_witness :
    (vpvrAnalyze vpTickCfg rangeWindow).2.tickSize =
      ((findPriceRange rangeWindow).2 - (findPriceRange rangeWindow).1) / 200 ∧
    (vpvrAnalyze vpTickCfg rangeWindow).2.tickSize ≠ vpTickCfg.tickSize := by
  have h := vpvrAnalyze_config_effect vpTickCfg rangeWindow rfl (by decide)
  exact ⟨h.1, h.2 (by decide)⟩

end Market
